import Mathlib

/-!
Verification of the CasaStellar payroll-yield escrow contract.

Shallow embedding of `contracts/payday-yield/src/lib.rs` (the complete
variant, with DeFindex vault integration): the persistent instance storage
becomes an explicit `ContractState`, the ledger clock and contract address
become an explicit `LedgerEnv`, external collaborators (token transfers and
vault deposit/withdraw) are recorded as an emitted list of `ExtCall`s with
their results supplied as oracle arguments, and Rust `i128` checked
arithmetic becomes `Int` with explicit 128-bit range checks.  The simpler
variant in `frontend/contracts/payday-yield/src/lib.rs` is embedded only
where a claim refers to it (its fallback simple-interest yield written by
`release_to_sdp`).
-/

namespace Payday

set_option maxRecDepth 40000

/-- Identities (Soroban `Address`) are modelled as natural numbers. -/
abbrev Address := Nat

/-- `i128::MIN`. -/
def I128_MIN : Int := -(2 ^ 127)

/-- `i128::MAX`. -/
def I128_MAX : Int := 2 ^ 127 - 1

/-- Whether an integer fits in `i128`. -/
def i128_ok (x : Int) : Bool := decide (I128_MIN ≤ x) && decide (x ≤ I128_MAX)

/-- Rust `i128::checked_sub`: the mathematical difference, `none` on 128-bit
overflow. -/
def i128_checked_sub (a b : Int) : Option Int :=
  if i128_ok (a - b) then some (a - b) else none

/-- Rust `i128::checked_mul`: the mathematical product, `none` on 128-bit
overflow. -/
def i128_checked_mul (a b : Int) : Option Int :=
  if i128_ok (a * b) then some (a * b) else none

/-- Rust `i128::checked_div`: truncated (toward-zero) division, `none` for a
zero divisor or for `MIN / -1`. -/
def i128_checked_div (a b : Int) : Option Int :=
  if b = 0 then none
  else if a = I128_MIN ∧ b = -1 then none
  else some (Int.tdiv a b)

/-- Rust `u64` subtraction with overflow checks: `none` models the panic on
underflow. -/
def u64_sub (a b : Nat) : Option Nat := if b ≤ a then some (a - b) else none

/-- The error enum of `lib.rs`. -/
inductive Error where
  | AlreadyInitialized
  | NotInitialized
  | PayoutDateNotReached
  | AlreadyReleased
  | AlreadyClaimed
  | Unauthorized
  | InsufficientFunds
  | NotYetReleased
  | InvalidAmount
  | InvalidPayoutDate
deriving Repr, DecidableEq

/-- The `PayrollLock` record stored per `(employer, batch_id)`. -/
structure PayrollLock where
  employer : Address
  total_amount : Int
  vault_shares : Int
  lock_date : Nat
  payout_date : Nat
  yield_earned : Int
  funds_released : Bool
  yield_claimed : Bool
deriving Repr, DecidableEq

/-- The contract's instance storage: the two configuration addresses, the
`PayrollLock(employer, batch_id)` map and the `NextBatchId(employer)` map
(absent keys are `none`; the code reads the counter with `unwrap_or(0)`). -/
structure ContractState where
  defindexPool : Option Address
  tokenAddr : Option Address
  locks : Address → Nat → Option PayrollLock
  nextBatchId : Address → Option Nat

/-- The ledger environment: the trusted clock and the contract's own
address. -/
structure LedgerEnv where
  timestamp : Nat
  contractAddr : Address

/-- External calls an operation performs, in order: token transfers and
vault deposits/withdrawals. -/
inductive ExtCall where
  | transfer (src dst : Address) (amount : Int)
  | vaultDeposit (amount : Int)
  | vaultWithdraw (shares : Int)
deriving Repr, DecidableEq

/-- Store a record under `PayrollLock(e, b)` (the code's
`env.storage().instance().set(&DataKey::PayrollLock(e, b), &l)`). -/
def setRecord (s : ContractState) (e : Address) (b : Nat) (l : PayrollLock) :
    ContractState :=
  { s with locks := fun e2 b2 => if e2 = e ∧ b2 = b then some l else s.locks e2 b2 }

/-- Store the per-employer counter under `NextBatchId(e)`. -/
def setNextBatch (s : ContractState) (e : Address) (n : Nat) : ContractState :=
  { s with nextBatchId := fun e2 => if e2 = e then some n else s.nextBatchId e2 }

theorem setRecord_locks_self (s : ContractState) (e : Address) (b : Nat)
    (l : PayrollLock) : (setRecord s e b l).locks e b = some l := by
  simp [setRecord]

/-- The storage state before `initialize`. -/
def initialState : ContractState :=
  { defindexPool := none, tokenAddr := none
    locks := fun _ _ => none, nextBatchId := fun _ => none }

/-- `initialize`: one-time configuration of the vault and token addresses
(the TTL extension is a storage-maintenance no-op in the model). -/
def initContract (s : ContractState) (defindex_pool token : Address) :
    Except Error Unit × ContractState :=
  if s.defindexPool.isSome then (.error .AlreadyInitialized, s)
  else (.ok (), { s with defindexPool := some defindex_pool, tokenAddr := some token })

/-- `lock_payroll`.  `employer.require_auth()` is the external authorization
collaborator and is a precondition of invoking the operation, not part of
its body; `vault_shares` is the oracle result of the vault's `deposit`. -/
def lock_payroll (env : LedgerEnv) (s : ContractState) (employer : Address)
    (total_amount : Int) (payout_date : Nat) (vault_shares : Int) :
    Except Error Nat × ContractState × List ExtCall :=
  if total_amount < 0 then (.error .InvalidAmount, s, [])
  else if payout_date ≤ env.timestamp then (.error .InvalidPayoutDate, s, [])
  else
    match s.tokenAddr with
    | none => (.error .NotInitialized, s, [])
    | some _token =>
      let batch_id := (s.nextBatchId employer).getD 0
      match s.defindexPool with
      | none =>
        (.error .NotInitialized, s,
          [ExtCall.transfer employer env.contractAddr total_amount])
      | some _vault =>
        let rec_new : PayrollLock :=
          { employer := employer, total_amount := total_amount
            vault_shares := vault_shares, lock_date := env.timestamp
            payout_date := payout_date, yield_earned := 0
            funds_released := false, yield_claimed := false }
        let s' : ContractState :=
          setNextBatch (setRecord s employer batch_id rec_new) employer (batch_id + 1)
        (.ok batch_id, s',
          [ExtCall.transfer employer env.contractAddr total_amount,
           ExtCall.vaultDeposit total_amount])

/-- `release_to_sdp`.  `withdrawn_amounts` is the oracle result of the
vault's `withdraw`; the code reads `withdrawn_amounts.get(0).unwrap_or(0)`
and stores `total_withdrawn.checked_sub(total_amount).unwrap_or(0)`. -/
def release_to_sdp (env : LedgerEnv) (s : ContractState) (employer : Address)
    (batch_id : Nat) (sdp_wallet_address : Address) (withdrawn_amounts : List Int) :
    Except Error Int × ContractState × List ExtCall :=
  match s.locks employer batch_id with
  | none => (.error .NotInitialized, s, [])
  | some lk =>
    if env.timestamp < lk.payout_date then (.error .PayoutDateNotReached, s, [])
    else if lk.funds_released then (.error .AlreadyReleased, s, [])
    else
      match s.tokenAddr with
      | none => (.error .NotInitialized, s, [])
      | some _token =>
        match s.defindexPool with
        | none => (.error .NotInitialized, s, [])
        | some _vault =>
          let total_withdrawn := (withdrawn_amounts.get? 0).getD 0
          let yield_earned := (i128_checked_sub total_withdrawn lk.total_amount).getD 0
          let lk' : PayrollLock :=
            { lk with yield_earned := yield_earned, funds_released := true }
          let s' : ContractState := setRecord s employer batch_id lk'
          (.ok yield_earned, s',
            [ExtCall.vaultWithdraw lk.vault_shares,
             ExtCall.transfer env.contractAddr sdp_wallet_address lk.total_amount])

/-- `claim_yield`.  `employer.require_auth()` is again a precondition: the
`employer` argument is the authenticated caller. -/
def claim_yield (env : LedgerEnv) (s : ContractState) (employer : Address)
    (batch_id : Nat) :
    Except Error Int × ContractState × List ExtCall :=
  match s.locks employer batch_id with
  | none => (.error .NotInitialized, s, [])
  | some lk =>
    if lk.employer ≠ employer then (.error .Unauthorized, s, [])
    else if !lk.funds_released then (.error .NotYetReleased, s, [])
    else if lk.yield_claimed then (.error .AlreadyClaimed, s, [])
    else
      match s.tokenAddr with
      | none => (.error .NotInitialized, s, [])
      | some _token =>
        let employer_share := lk.yield_earned
        let lk' : PayrollLock := { lk with yield_claimed := true }
        let s' : ContractState :=
          { s with
            locks := fun e b =>
              if e = employer ∧ b = batch_id then some lk' else s.locks e b }
        (.ok employer_share, s',
          [ExtCall.transfer env.contractAddr employer employer_share])

/-- `get_status`: read-only record lookup. -/
def get_status (s : ContractState) (employer : Address) (batch_id : Nat) :
    Except Error PayrollLock :=
  match s.locks employer batch_id with
  | none => .error .NotInitialized
  | some lk => .ok lk

/-- `calculate_current_yield` (the spec's `previewYield`): the checked
simple-interest projection.  The outer `Option` models termination of the
Rust function: `none` is the panic of the unchecked `u64` subtraction
`env.ledger().timestamp() - lock.lock_date` on underflow; `some` carries the
returned `Result`. -/
def calculate_current_yield (env : LedgerEnv) (s : ContractState)
    (employer : Address) (batch_id : Nat) : Option (Except Error Int) :=
  match s.locks employer batch_id with
  | none => some (.error .NotInitialized)
  | some lk =>
    match u64_sub env.timestamp lk.lock_date with
    | none => none
    | some elapsed =>
      let days_locked := elapsed / 86400
      match (i128_checked_mul lk.total_amount 4).bind
          (fun v => (i128_checked_mul v (Int.ofNat days_locked)).bind
            (fun v2 => i128_checked_div v2 (365 * 100))) with
      | none => some (.error .InsufficientFunds)
      | some v => some (.ok v)

/-- The yield written by `release_to_sdp` of the vault-less frontend variant
(`frontend/contracts/payday-yield/src/lib.rs` lines 123-124):
`(total_amount * 4 * days_locked as i128) / (365 * 100)` with plain `u64`
subtraction and plain `i128` multiplication; both panic on overflow
(overflow checks are enabled in Soroban contract builds), modelled as
`none`.  The division by the positive constant cannot overflow. -/
def frontend_release_yield (total_amount : Int) (lock_date now : Nat) : Option Int :=
  (u64_sub now lock_date).bind fun elapsed =>
    let days_locked := elapsed / 86400
    (i128_checked_mul total_amount 4).bind fun v =>
      (i128_checked_mul v (Int.ofNat days_locked)).map fun v2 =>
        Int.tdiv v2 (365 * 100)

/-! ### Characterization lemmas: each operation either fails leaving the
state untouched, or succeeds with the described update. -/

theorem initContract_cases (s : ContractState) (p t : Address)
    (r : Except Error Unit) (s' : ContractState)
    (h : initContract s p t = (r, s')) :
    ((∃ err, r = .error err) ∧ s' = s) ∨
      (r = .ok () ∧ s'.defindexPool = some p ∧ s'.tokenAddr = some t ∧
        s'.locks = s.locks ∧ s'.nextBatchId = s.nextBatchId) := by
  unfold initContract at h
  split at h
  · injection h with h1 h2
    exact Or.inl ⟨⟨_, h1.symm⟩, h2.symm⟩
  · injection h with h1 h2
    subst h2
    exact Or.inr ⟨h1.symm, rfl, rfl, rfl, rfl⟩

theorem lock_payroll_cases (env : LedgerEnv) (s : ContractState) (e : Address)
    (amt : Int) (pd : Nat) (vs : Int) (r : Except Error Nat)
    (s' : ContractState) (cs : List ExtCall)
    (h : lock_payroll env s e amt pd vs = (r, s', cs)) :
    ((∃ err, r = .error err) ∧ s' = s ∧ cs = []) ∨
    (r = .error .NotInitialized ∧ s' = s ∧ s.tokenAddr.isSome ∧ s.defindexPool = none) ∨
    (∃ lk : PayrollLock, r = .ok ((s.nextBatchId e).getD 0) ∧
      lk.employer = e ∧ lk.funds_released = false ∧ lk.yield_claimed = false ∧
      lk.yield_earned = 0 ∧ lk.total_amount = amt ∧ lk.lock_date = env.timestamp ∧
      lk.payout_date = pd ∧
      (∀ e2 b, s'.locks e2 b =
        if e2 = e ∧ b = (s.nextBatchId e).getD 0 then some lk else s.locks e2 b) ∧
      (∀ e2, s'.nextBatchId e2 =
        if e2 = e then some ((s.nextBatchId e).getD 0 + 1) else s.nextBatchId e2) ∧
      s'.defindexPool = s.defindexPool ∧ s'.tokenAddr = s.tokenAddr) := by
  simp only [lock_payroll] at h
  split at h
  · injection h with h1 h'
    injection h' with h2 h3
    exact Or.inl ⟨⟨_, h1.symm⟩, h2.symm, h3.symm⟩
  · split at h
    · injection h with h1 h'
      injection h' with h2 h3
      exact Or.inl ⟨⟨_, h1.symm⟩, h2.symm, h3.symm⟩
    · split at h
      · injection h with h1 h'
        injection h' with h2 h3
        exact Or.inl ⟨⟨_, h1.symm⟩, h2.symm, h3.symm⟩
      · rename_i tok htok
        split at h
        · rename_i hdp
          injection h with h1 h'
          injection h' with h2 h3
          refine Or.inr (Or.inl ⟨h1.symm, h2.symm, ?_, hdp⟩)
          simp [htok]
        · injection h with h1 h'
          injection h' with h2 h3
          subst h2
          exact Or.inr (Or.inr ⟨_, h1.symm, rfl, rfl, rfl, rfl, rfl, rfl, rfl,
            fun e2 b => rfl, fun e2 => rfl, rfl, rfl⟩)

theorem release_cases (env : LedgerEnv) (s : ContractState) (e : Address)
    (b : Nat) (sdp : Address) (wa : List Int) (r : Except Error Int)
    (s' : ContractState) (cs : List ExtCall)
    (h : release_to_sdp env s e b sdp wa = (r, s', cs)) :
    ((∃ err, r = .error err) ∧ s' = s ∧ cs = []) ∨
    (∃ lk : PayrollLock, s.locks e b = some lk ∧ lk.funds_released = false ∧
      lk.payout_date ≤ env.timestamp ∧
      r = .ok ((i128_checked_sub ((wa.get? 0).getD 0) lk.total_amount).getD 0) ∧
      (∀ e2 b2, s'.locks e2 b2 =
        if e2 = e ∧ b2 = b then
          some { lk with
            yield_earned := (i128_checked_sub ((wa.get? 0).getD 0) lk.total_amount).getD 0,
            funds_released := true }
        else s.locks e2 b2) ∧
      s'.nextBatchId = s.nextBatchId ∧ s'.defindexPool = s.defindexPool ∧
      s'.tokenAddr = s.tokenAddr ∧
      cs = [ExtCall.vaultWithdraw lk.vault_shares,
            ExtCall.transfer env.contractAddr sdp lk.total_amount]) := by
  simp only [release_to_sdp] at h
  split at h
  · injection h with h1 h'
    injection h' with h2 h3
    exact Or.inl ⟨⟨_, h1.symm⟩, h2.symm, h3.symm⟩
  · rename_i lk hlk
    split at h
    · injection h with h1 h'
      injection h' with h2 h3
      exact Or.inl ⟨⟨_, h1.symm⟩, h2.symm, h3.symm⟩
    · split at h
      · injection h with h1 h'
        injection h' with h2 h3
        exact Or.inl ⟨⟨_, h1.symm⟩, h2.symm, h3.symm⟩
      · split at h
        · injection h with h1 h'
          injection h' with h2 h3
          exact Or.inl ⟨⟨_, h1.symm⟩, h2.symm, h3.symm⟩
        · split at h
          · injection h with h1 h'
            injection h' with h2 h3
            exact Or.inl ⟨⟨_, h1.symm⟩, h2.symm, h3.symm⟩
          · rename_i hts hrel x1 tokv htok x2 dpv hdp
            injection h with h1 h'
            injection h' with h2 h3
            subst h2
            refine Or.inr ⟨lk, hlk, ?_, ?_, h1.symm, fun e2 b2 => rfl, rfl, rfl, rfl, h3.symm⟩
            · simpa using hrel
            · omega

theorem claim_cases (env : LedgerEnv) (s : ContractState) (e : Address)
    (b : Nat) (r : Except Error Int) (s' : ContractState) (cs : List ExtCall)
    (h : claim_yield env s e b = (r, s', cs)) :
    ((∃ err, r = .error err) ∧ s' = s ∧ cs = []) ∨
    (∃ lk : PayrollLock, s.locks e b = some lk ∧ lk.employer = e ∧
      lk.funds_released = true ∧ lk.yield_claimed = false ∧
      r = .ok lk.yield_earned ∧
      (∀ e2 b2, s'.locks e2 b2 =
        if e2 = e ∧ b2 = b then some { lk with yield_claimed := true }
        else s.locks e2 b2) ∧
      s'.nextBatchId = s.nextBatchId ∧ s'.defindexPool = s.defindexPool ∧
      s'.tokenAddr = s.tokenAddr ∧
      cs = [ExtCall.transfer env.contractAddr e lk.yield_earned]) := by
  simp only [claim_yield] at h
  split at h
  · injection h with h1 h'
    injection h' with h2 h3
    exact Or.inl ⟨⟨_, h1.symm⟩, h2.symm, h3.symm⟩
  · rename_i lk hlk
    split at h
    · injection h with h1 h'
      injection h' with h2 h3
      exact Or.inl ⟨⟨_, h1.symm⟩, h2.symm, h3.symm⟩
    · split at h
      · injection h with h1 h'
        injection h' with h2 h3
        exact Or.inl ⟨⟨_, h1.symm⟩, h2.symm, h3.symm⟩
      · split at h
        · injection h with h1 h'
          injection h' with h2 h3
          exact Or.inl ⟨⟨_, h1.symm⟩, h2.symm, h3.symm⟩
        · split at h
          · injection h with h1 h'
            injection h' with h2 h3
            exact Or.inl ⟨⟨_, h1.symm⟩, h2.symm, h3.symm⟩
          · rename_i hne hrel hcl x1 tokv htok
            injection h with h1 h'
            injection h' with h2 h3
            subst h2
            refine Or.inr ⟨lk, hlk, ?_, ?_, ?_, h1.symm, fun e2 b2 => rfl, rfl, rfl, rfl, h3.symm⟩
            · simpa using hne
            · simpa using hrel
            · simpa using hcl

/-! ### Reachable states and the state invariant -/

/-- One invocation of any mutating entry point (successful or failing),
with the oracle answers of the external collaborators arbitrary. -/
inductive Step : ContractState → ContractState → Prop where
  | init (s : ContractState) (p t : Address) (r : Except Error Unit)
      (s' : ContractState) (h : initContract s p t = (r, s')) : Step s s'
  | lock (env : LedgerEnv) (s : ContractState) (e : Address) (amt : Int)
      (pd : Nat) (vs : Int) (r : Except Error Nat) (s' : ContractState)
      (cs : List ExtCall) (h : lock_payroll env s e amt pd vs = (r, s', cs)) :
      Step s s'
  | release (env : LedgerEnv) (s : ContractState) (e : Address) (b : Nat)
      (sdp : Address) (wa : List Int) (r : Except Error Int)
      (s' : ContractState) (cs : List ExtCall)
      (h : release_to_sdp env s e b sdp wa = (r, s', cs)) : Step s s'
  | claim (env : LedgerEnv) (s : ContractState) (e : Address) (b : Nat)
      (r : Except Error Int) (s' : ContractState) (cs : List ExtCall)
      (h : claim_yield env s e b = (r, s', cs)) : Step s s'

/-- States reachable from the deployed (uninitialized) contract. -/
inductive Reachable : ContractState → Prop where
  | base : Reachable initialState
  | step (s s' : ContractState) (hr : Reachable s) (hs : Step s s') : Reachable s'

/-- The inductive state invariant: the configuration addresses are set
together; every stored record's `employer` field equals the employer
component of its key; batch ids at or above the per-payer counter are
unused; an unreleased record has zero yield and is unclaimed; a claimed
record is released. -/
structure WF (s : ContractState) : Prop where
  cfg : s.tokenAddr.isSome → s.defindexPool.isSome
  owner : ∀ e b l, s.locks e b = some l → l.employer = e
  fresh : ∀ e b, (s.nextBatchId e).getD 0 ≤ b → s.locks e b = none
  unreleased : ∀ e b l, s.locks e b = some l → l.funds_released = false →
      l.yield_earned = 0 ∧ l.yield_claimed = false
  claimed_rel : ∀ e b l, s.locks e b = some l → l.yield_claimed = true →
      l.funds_released = true

theorem wf_initialState : WF initialState := by
  constructor <;> intros <;> simp_all [initialState]

theorem wf_step (s s' : ContractState) (hs : Step s s') (hw : WF s) : WF s' := by
  cases hs with
  | init y1 p t r y2 h =>
    rcases initContract_cases s p t r s' h with ⟨_, rfl⟩ | ⟨_, hdp, htok, hlocks, hnext⟩
    · exact hw
    · exact ⟨fun _ => by simp [hdp], fun e b l hl => hw.owner e b l (hlocks ▸ hl),
        fun e b hb => hlocks ▸ hw.fresh e b (hnext ▸ hb),
        fun e b l hl => hw.unreleased e b l (hlocks ▸ hl),
        fun e b l hl => hw.claimed_rel e b l (hlocks ▸ hl)⟩
  | lock env y1 e amt pd vs r y2 cs h =>
    rcases lock_payroll_cases env s e amt pd vs r s' cs h with
      ⟨_, rfl, _⟩ | ⟨_, rfl, _, _⟩ | ⟨lk, _, hemp, hfr, hyc, hye, _, _, _, hlocks, hnext, hdp, htok⟩
    · exact hw
    · exact hw
    · refine ⟨fun hts => ?_, fun e2 b l hl => ?_, fun e2 b hb => ?_,
        fun e2 b l hl hf => ?_, fun e2 b l hl hc => ?_⟩
      · exact hdp ▸ hw.cfg (htok ▸ hts)
      · rw [hlocks] at hl
        split at hl
        · rename_i hcond
          cases hl
          exact hemp.trans hcond.1.symm
        · exact hw.owner e2 b l hl
      · rw [hnext e2] at hb
        rw [hlocks]
        split
        · rename_i hcond
          exfalso
          rw [hcond.1, if_pos rfl, Option.getD_some] at hb
          omega
        · by_cases he : e2 = e
          · rw [he, if_pos rfl, Option.getD_some] at hb
            rw [he]
            exact hw.fresh e b (by omega)
          · rw [if_neg he] at hb
            exact hw.fresh e2 b hb
      · rw [hlocks] at hl
        split at hl
        · cases hl
          exact ⟨hye, hyc⟩
        · exact hw.unreleased e2 b l hl hf
      · rw [hlocks] at hl
        split at hl
        · cases hl
          rw [hyc] at hc
          cases hc
        · exact hw.claimed_rel e2 b l hl hc
  | release env y1 e b sdp wa r y2 cs h =>
    rcases release_cases env s e b sdp wa r s' cs h with
      ⟨_, rfl, _⟩ | ⟨lk, hlk, hfr, hts, _, hlocks, hnext, hdp, htok, _⟩
    · exact hw
    · refine ⟨fun ht => hdp ▸ hw.cfg (htok ▸ ht), fun e2 b2 l hl => ?_,
        fun e2 b2 hb => ?_, fun e2 b2 l hl hf => ?_, fun e2 b2 l hl hc => ?_⟩
      · rw [hlocks] at hl
        split at hl
        · rename_i hcond
          cases hl
          exact (hw.owner e b lk hlk).trans hcond.1.symm
        · exact hw.owner e2 b2 l hl
      · rw [hnext] at hb
        rw [hlocks]
        split
        · rename_i hcond
          exfalso
          have hn : s.locks e2 b2 = none := hw.fresh e2 b2 hb
          rw [hcond.1, hcond.2, hlk] at hn
          cases hn
        · exact hw.fresh e2 b2 hb
      · rw [hlocks] at hl
        split at hl
        · cases hl
          have hf2 : (true : Bool) = false := hf
          cases hf2
        · exact hw.unreleased e2 b2 l hl hf
      · rw [hlocks] at hl
        split at hl
        · cases hl
          rfl
        · exact hw.claimed_rel e2 b2 l hl hc
  | claim env y1 e b r y2 cs h =>
    rcases claim_cases env s e b r s' cs h with
      ⟨_, rfl, _⟩ | ⟨lk, hlk, hemp, hfr, hyc, _, hlocks, hnext, hdp, htok, _⟩
    · exact hw
    · refine ⟨fun ht => hdp ▸ hw.cfg (htok ▸ ht), fun e2 b2 l hl => ?_,
        fun e2 b2 hb => ?_, fun e2 b2 l hl hf => ?_, fun e2 b2 l hl hc => ?_⟩
      · rw [hlocks] at hl
        split at hl
        · rename_i hcond
          cases hl
          exact hemp.trans hcond.1.symm
        · exact hw.owner e2 b2 l hl
      · rw [hnext] at hb
        rw [hlocks]
        split
        · rename_i hcond
          exfalso
          have hn : s.locks e2 b2 = none := hw.fresh e2 b2 hb
          rw [hcond.1, hcond.2, hlk] at hn
          cases hn
        · exact hw.fresh e2 b2 hb
      · rw [hlocks] at hl
        split at hl
        · cases hl
          have hf2 : lk.funds_released = false := hf
          rw [hfr] at hf2
          cases hf2
        · exact hw.unreleased e2 b2 l hl hf
      · rw [hlocks] at hl
        split at hl
        · cases hl
          exact hfr
        · exact hw.claimed_rel e2 b2 l hl hc

theorem wf_reachable (s : ContractState) (hr : Reachable s) : WF s := by
  induction hr with
  | base => exact wf_initialState
  | step s s' hr hs ih => exact wf_step s s' hs ih

/-- Records are never deleted, and the two lifecycle flags never regress
from `true` to `false` across any single invocation. -/
theorem step_mono (s s' : ContractState) (hw : WF s) (hs : Step s s') :
    ∀ e b l, s.locks e b = some l →
      ∃ l', s'.locks e b = some l' ∧
        (l.funds_released = true → l'.funds_released = true) ∧
        (l.yield_claimed = true → l'.yield_claimed = true) := by
  intro e b l hl
  cases hs with
  | init y1 p t r y2 h =>
    rcases initContract_cases s p t r s' h with ⟨_, rfl⟩ | ⟨_, _, _, hlocks, _⟩
    · exact ⟨l, hl, fun h2 => h2, fun h2 => h2⟩
    · exact ⟨l, hlocks ▸ hl, fun h2 => h2, fun h2 => h2⟩
  | lock env y1 e2 amt pd vs r y2 cs h =>
    rcases lock_payroll_cases env s e2 amt pd vs r s' cs h with
      ⟨_, rfl, _⟩ | ⟨_, rfl, _, _⟩ | ⟨lk, _, _, _, _, _, _, _, _, hlocks, _, _, _⟩
    · exact ⟨l, hl, fun h2 => h2, fun h2 => h2⟩
    · exact ⟨l, hl, fun h2 => h2, fun h2 => h2⟩
    · refine ⟨l, ?_, fun h2 => h2, fun h2 => h2⟩
      rw [hlocks]
      split
      · rename_i hcond
        exfalso
        have hn : s.locks e2 b = none := hw.fresh e2 b (le_of_eq hcond.2.symm)
        rw [← hcond.1, hl] at hn
        cases hn
      · exact hl
  | release env y1 e2 b2 sdp wa r y2 cs h =>
    rcases release_cases env s e2 b2 sdp wa r s' cs h with
      ⟨_, rfl, _⟩ | ⟨lk, hlk, hfr, _, _, hlocks, _, _, _, _⟩
    · exact ⟨l, hl, fun h2 => h2, fun h2 => h2⟩
    · rw [hlocks e b]
      split
      · rename_i hcond
        rw [hcond.1, hcond.2, hlk] at hl
        cases hl
        exact ⟨_, rfl, fun _ => rfl, fun hc => hc⟩
      · exact ⟨l, hl, fun h2 => h2, fun h2 => h2⟩
  | claim env y1 e2 b2 r y2 cs h =>
    rcases claim_cases env s e2 b2 r s' cs h with
      ⟨_, rfl, _⟩ | ⟨lk, hlk, _, hfr, hyc, _, hlocks, _, _, _, _⟩
    · exact ⟨l, hl, fun h2 => h2, fun h2 => h2⟩
    · rw [hlocks e b]
      split
      · rename_i hcond
        rw [hcond.1, hcond.2, hlk] at hl
        cases hl
        exact ⟨_, rfl, fun h2 => h2, fun _ => rfl⟩
      · exact ⟨l, hl, fun h2 => h2, fun h2 => h2⟩

/-! ### Sample concrete data for witnesses -/

/-- A fresh unreleased record: employer 0, principal 1000, maturity 100. -/
def lockA : PayrollLock :=
  { employer := 0, total_amount := 1000, vault_shares := 1000, lock_date := 0,
    payout_date := 100, yield_earned := 0, funds_released := false,
    yield_claimed := false }

/-- An initialized state holding `lockA` under key `(0, 0)`. -/
def stateA : ContractState :=
  { defindexPool := some 7, tokenAddr := some 8
    locks := fun e b => if e = 0 ∧ b = 0 then some lockA else none
    nextBatchId := fun e => if e = 0 then some 1 else none }

/-! ### The claims -/
/-- Helper: a released record makes `release_to_sdp` fail with
`AlreadyReleased`, leaving everything unchanged. -/
theorem release_err_already (env : LedgerEnv) (s : ContractState)
    (e sdp : Address) (b : Nat) (wa : List Int) (l : PayrollLock)
    (hl : s.locks e b = some l) (hts : l.payout_date ≤ env.timestamp)
    (hrel : l.funds_released = true) :
    release_to_sdp env s e b sdp wa = (.error .AlreadyReleased, s, []) := by
  simp only [release_to_sdp, hl]
  rw [if_neg (by omega), if_pos hrel]

/-- Helper: a claimed record makes `claim_yield` fail with
`AlreadyClaimed`, leaving everything unchanged. -/
theorem claim_err_already (env : LedgerEnv) (s : ContractState) (e : Address)
    (b : Nat) (l : PayrollLock) (hl : s.locks e b = some l)
    (hemp : l.employer = e) (hrel : l.funds_released = true)
    (hyc : l.yield_claimed = true) :
    claim_yield env s e b = (.error .AlreadyClaimed, s, []) := by
  simp only [claim_yield, hl]
  rw [if_neg (by simp [hemp]), if_neg (by simp [hrel]), if_pos hyc]

/-- C1: `release_to_sdp` checks its guards in the order record-exists
(`NotInitialized`), maturity reached (`PayoutDateNotReached`), not yet
released (`AlreadyReleased`).  Before `payout_date` it always fails with
`PayoutDateNotReached`; after one successful release, every further call on
the same record (at any later ledger time, with any oracle answers) fails
with `AlreadyReleased` and leaves the state — in particular the record's
`yield_earned` and `funds_released` fields — unchanged. -/
theorem release_before_maturity_and_only_once
    (env env2 : LedgerEnv) (s : ContractState) (e sdp sdp2 : Address)
    (b : Nat) (wa wa2 : List Int) :
    (s.locks e b = none →
      release_to_sdp env s e b sdp wa = (.error .NotInitialized, s, [])) ∧
    (∀ l, s.locks e b = some l → env.timestamp < l.payout_date →
      release_to_sdp env s e b sdp wa = (.error .PayoutDateNotReached, s, [])) ∧
    (∀ l, s.locks e b = some l → l.payout_date ≤ env.timestamp →
      l.funds_released = true →
      release_to_sdp env s e b sdp wa = (.error .AlreadyReleased, s, [])) ∧
    (∀ y s' cs, release_to_sdp env s e b sdp wa = (.ok y, s', cs) →
      env.timestamp ≤ env2.timestamp →
      ∃ l', s'.locks e b = some l' ∧ l'.funds_released = true ∧
        l'.yield_earned = y ∧
        release_to_sdp env2 s' e b sdp2 wa2 = (.error .AlreadyReleased, s', [])) := by
  refine ⟨fun h => by simp [release_to_sdp, h],
    fun l hl hts => by simp [release_to_sdp, hl, hts],
    fun l hl hts hrel => release_err_already env s e sdp b wa l hl hts hrel,
    fun y s' cs hok hmono => ?_⟩
  rcases release_cases env s e b sdp wa _ s' cs hok with
    ⟨⟨err, herr⟩, _, _⟩ | ⟨lk, hlk, hfr, hts, hr, hlocks, _, _, _, _⟩
  · cases herr
  · injection hr with hy
    have hl' : s'.locks e b =
        some { lk with
          yield_earned := (i128_checked_sub ((wa.get? 0).getD 0) lk.total_amount).getD 0,
          funds_released := true } := by
      rw [hlocks, if_pos ⟨rfl, rfl⟩]
    exact ⟨_, hl', rfl, hy.symm,
      release_err_already env2 s' e sdp2 b wa2 _ hl'
        (le_trans hts hmono : lk.payout_date ≤ env2.timestamp) rfl⟩

theorem release_before_maturity_and_only_once_witness :
    ∃ l', ((release_to_sdp ⟨100, 5⟩ stateA 0 0 9 [1005]).2.1).locks 0 0 = some l' ∧
      l'.funds_released = true ∧ l'.yield_earned = 5 ∧
      release_to_sdp ⟨200, 5⟩ (release_to_sdp ⟨100, 5⟩ stateA 0 0 9 [1005]).2.1
          0 0 9 [1005] =
        (.error .AlreadyReleased, (release_to_sdp ⟨100, 5⟩ stateA 0 0 9 [1005]).2.1, []) :=
  (release_before_maturity_and_only_once ⟨100, 5⟩ ⟨200, 5⟩ stateA 0 9 9 0
      [1005] [1005]).2.2.2 5 _ _ (by rfl) (by decide)

/-- C2: with the caller authenticated as `employer` and owning the record,
`claim_yield` before a successful release fails with `NotYetReleased`; the
first call after release returns `yield_earned`, transfers exactly that
full stored amount to the employer (no split) and sets `yield_claimed`;
every subsequent call fails with `AlreadyClaimed`, changes nothing and
performs no transfer. -/
theorem claim_yield_first_succeeds_then_already_claimed
    (env env2 : LedgerEnv) (s : ContractState) (e tok : Address) (b : Nat) :
    (∀ l, s.locks e b = some l → l.employer = e → l.funds_released = false →
      claim_yield env s e b = (.error .NotYetReleased, s, [])) ∧
    (∀ l, s.locks e b = some l → l.employer = e → l.funds_released = true →
      l.yield_claimed = false → s.tokenAddr = some tok →
      claim_yield env s e b =
          (.ok l.yield_earned, setRecord s e b { l with yield_claimed := true },
            [ExtCall.transfer env.contractAddr e l.yield_earned]) ∧
        (setRecord s e b { l with yield_claimed := true }).locks e b =
          some { l with yield_claimed := true } ∧
        claim_yield env2 (setRecord s e b { l with yield_claimed := true }) e b =
          (.error .AlreadyClaimed,
            setRecord s e b { l with yield_claimed := true }, [])) := by
  constructor
  · intro l hl hemp hfr
    simp only [claim_yield, hl]
    rw [if_neg (by simp [hemp]), if_pos (by simp [hfr])]
  · intro l hl hemp hfr hyc htok
    refine ⟨?_, setRecord_locks_self s e b _, ?_⟩
    · simp only [claim_yield, hl, htok]
      rw [if_neg (by simp [hemp]), if_neg (by simp [hfr]), if_neg (by simp [hyc])]
      rw [← htok]
      rfl
    · exact claim_err_already env2 _ e b _ (setRecord_locks_self s e b _)
        (hemp : l.employer = e) (hfr : l.funds_released = true) rfl

/-- `stateA` after the successful release of batch 0 at time 100 with the
vault returning 1005. -/
def stateA_released : ContractState :=
  (release_to_sdp ⟨100, 5⟩ stateA 0 0 9 [1005]).2.1

/-- `lockA` as updated by that release: yield 5, released. -/
def lockA_released : PayrollLock :=
  { lockA with yield_earned := 5, funds_released := true }

/-- `lockA_released` after the yield claim. -/
def lockA_claimed : PayrollLock :=
  { lockA with yield_earned := 5, funds_released := true, yield_claimed := true }

theorem claim_yield_first_succeeds_then_already_claimed_witness :
    claim_yield ⟨150, 5⟩ stateA_released 0 0 =
        (.ok 5, setRecord stateA_released 0 0 lockA_claimed,
          [ExtCall.transfer 5 0 5]) ∧
      (setRecord stateA_released 0 0 lockA_claimed).locks 0 0 =
        some lockA_claimed ∧
      claim_yield ⟨250, 5⟩ (setRecord stateA_released 0 0 lockA_claimed) 0 0 =
        (.error .AlreadyClaimed, setRecord stateA_released 0 0 lockA_claimed, []) :=
  (claim_yield_first_succeeds_then_already_claimed ⟨150, 5⟩ ⟨250, 5⟩
      stateA_released 0 8 0).2
    lockA_released (by rfl) (by rfl) (by rfl) (by rfl) (by rfl)

/-- A matured record with principal 10 (for the short-vault-return case). -/
def lockB : PayrollLock :=
  { employer := 0, total_amount := 10, vault_shares := 10, lock_date := 0,
    payout_date := 100, yield_earned := 0, funds_released := false,
    yield_claimed := false }

/-- An initialized state holding `lockB` under key `(0, 0)`. -/
def stateB : ContractState :=
  { defindexPool := some 7, tokenAddr := some 8
    locks := fun e b => if e = 0 ∧ b = 0 then some lockB else none
    nextBatchId := fun e => if e = 0 then some 1 else none }

/-- C3 counterexample: with principal 10 and the vault returning 5,
`release_to_sdp` returns and stores `yield_earned = -5`, while the claim
predicts `max 0 (5 - 10) = 0`: the subtraction result is not clamped at
zero, so `yield_earned` can be negative. -/
theorem release_negative_yield_counterexample :
    (release_to_sdp ⟨100, 5⟩ stateB 0 0 9 [5]).1 = .ok (-5) ∧
      ((release_to_sdp ⟨100, 5⟩ stateB 0 0 9 [5]).2.1.locks 0 0).map
        PayrollLock.yield_earned = some (-5) ∧
      (-5 : Int) < 0 ∧ max (0 : Int) (5 - 10) = 0 :=
  ⟨rfl, rfl, by decide, by decide⟩

/-- C3 (amended): for every matured, unreleased record, `release_to_sdp`
stores `yield_earned = total_withdrawn.checked_sub(principal).unwrap_or(0)`:
the plain difference whenever it fits in `i128` — which is negative when the
vault returns less than the principal — and `0` only on 128-bit overflow of
the subtraction. -/
theorem release_yield_is_checked_sub_not_clamped
    (env : LedgerEnv) (s : ContractState) (e sdp tok dp : Address) (b : Nat)
    (wa : List Int) (l : PayrollLock) (hl : s.locks e b = some l)
    (hts : l.payout_date ≤ env.timestamp) (hrel : l.funds_released = false)
    (htok : s.tokenAddr = some tok) (hdp : s.defindexPool = some dp) :
    ∃ y, release_to_sdp env s e b sdp wa =
        (.ok y, setRecord s e b { l with yield_earned := y, funds_released := true },
          [ExtCall.vaultWithdraw l.vault_shares,
           ExtCall.transfer env.contractAddr sdp l.total_amount]) ∧
      y = (i128_checked_sub ((wa.get? 0).getD 0) l.total_amount).getD 0 ∧
      (i128_ok ((wa.get? 0).getD 0 - l.total_amount) = true →
        y = (wa.get? 0).getD 0 - l.total_amount) := by
  refine ⟨_, ?_, rfl, fun hok => by rw [i128_checked_sub, if_pos hok]; rfl⟩
  simp only [release_to_sdp, hl, htok, hdp]
  rw [if_neg (by omega), if_neg (by simp [hrel])]

theorem release_yield_is_checked_sub_not_clamped_witness :
    ∃ y, release_to_sdp ⟨100, 5⟩ stateB 0 0 9 [5] =
        (.ok y, setRecord stateB 0 0 { lockB with yield_earned := y, funds_released := true },
          [ExtCall.vaultWithdraw 10, ExtCall.transfer 5 9 10]) ∧
      y = (i128_checked_sub (([(5 : Int)].get? 0).getD 0) lockB.total_amount).getD 0 ∧
      (i128_ok (([(5 : Int)].get? 0).getD 0 - lockB.total_amount) = true →
        y = ([(5 : Int)].get? 0).getD 0 - lockB.total_amount) :=
  release_yield_is_checked_sub_not_clamped ⟨100, 5⟩ stateB 0 9 8 7 0 [5] lockB
    (by rfl) (by decide) (by rfl) (by rfl) (by rfl)

/-- A state whose only record sits under key `(1, 0)` but carries
`employer = 0`: a mismatch `lock_payroll` never produces, used to exhibit
the `Unauthorized` branch. -/
def stateBad : ContractState :=
  { defindexPool := some 7, tokenAddr := some 8
    locks := fun e b => if e = 1 ∧ b = 0 then some lockA else none
    nextBatchId := fun _ => none }

/-- C4 counterexample: employer 0 owns the only record (batch 0); the
distinct authenticated identity 1 invoking `claim_yield` on that batch id
gets `NotInitialized` — not the claimed `Unauthorized` — because the lookup
key is built from the caller's own identity. -/
theorem claim_yield_nonowner_counterexample :
    claim_yield ⟨150, 5⟩ stateA 1 0 = (.error .NotInitialized, stateA, []) ∧
      Error.NotInitialized ≠ Error.Unauthorized :=
  ⟨rfl, by decide⟩

/-- C4 (amended): `claim_yield` never hands another payer's record to a
non-owner: the record is looked up under the caller's own key, so a caller
with no record under `(caller, batchId)` fails with `NotInitialized`
regardless of any other record's state; the `Unauthorized` branch fires
exactly when the record stored under the caller's key carries a different
`employer` field (which reachable states never contain). -/
theorem claim_yield_nonowner_not_initialized (env : LedgerEnv)
    (s : ContractState) (c : Address) (b : Nat) :
    (s.locks c b = none →
      claim_yield env s c b = (.error .NotInitialized, s, [])) ∧
    (∀ l, s.locks c b = some l → l.employer ≠ c →
      claim_yield env s c b = (.error .Unauthorized, s, [])) := by
  constructor
  · intro h
    simp [claim_yield, h]
  · intro l hl hne
    simp only [claim_yield, hl]
    rw [if_pos hne]

theorem claim_yield_nonowner_not_initialized_witness :
    claim_yield ⟨150, 5⟩ stateA 1 0 = (.error .NotInitialized, stateA, []) ∧
      claim_yield ⟨150, 5⟩ stateBad 1 0 = (.error .Unauthorized, stateBad, []) :=
  ⟨(claim_yield_nonowner_not_initialized ⟨150, 5⟩ stateA 1 0).1 rfl,
   (claim_yield_nonowner_not_initialized ⟨150, 5⟩ stateBad 1 0).2 lockA rfl (by decide)⟩

/-- The record `lock_payroll` creates (used to name it in proofs). -/
def mkLock (e : Address) (amt vs : Int) (ts pd : Nat) : PayrollLock :=
  { employer := e, total_amount := amt, vault_shares := vs, lock_date := ts,
    payout_date := pd, yield_earned := 0, funds_released := false,
    yield_claimed := false }

/-- The state after `initialize(7, 8)` on a fresh deployment. -/
def cfgState : ContractState := (initContract initialState 7 8).2

/-- C5: the per-payer batch counter starts at 0, every valid `lock_payroll`
returns the counter's current value as the new `batchId` and increments the
counter by exactly one, and `get_status` on the fresh record immediately
returns `funds_released = false`, `yield_claimed = false`,
`yield_earned = 0`; hence the n-th successful lock of a payer returns
`batchId = n`. -/
theorem lock_returns_counter_then_increments
    (env : LedgerEnv) (s : ContractState) (e tok dp : Address)
    (amt vs : Int) (pd : Nat) :
    ((initialState.nextBatchId e).getD 0 = 0) ∧
    (0 ≤ amt → env.timestamp < pd → s.tokenAddr = some tok →
      s.defindexPool = some dp →
      ∃ s' cs, lock_payroll env s e amt pd vs =
          (.ok ((s.nextBatchId e).getD 0), s', cs) ∧
        (s'.nextBatchId e).getD 0 = (s.nextBatchId e).getD 0 + 1 ∧
        ∃ l, get_status s' e ((s.nextBatchId e).getD 0) = .ok l ∧
          l.funds_released = false ∧ l.yield_claimed = false ∧
          l.yield_earned = 0) := by
  refine ⟨by simp [initialState], fun hamt hpd htok hdp => ?_⟩
  have h : lock_payroll env s e amt pd vs =
      (.ok ((s.nextBatchId e).getD 0),
        setNextBatch
          (setRecord s e ((s.nextBatchId e).getD 0)
            { employer := e, total_amount := amt, vault_shares := vs,
              lock_date := env.timestamp, payout_date := pd, yield_earned := 0,
              funds_released := false, yield_claimed := false })
          e ((s.nextBatchId e).getD 0 + 1),
        [ExtCall.transfer e env.contractAddr amt, ExtCall.vaultDeposit amt]) := by
    simp only [lock_payroll, htok, hdp]
    rw [if_neg (by omega), if_neg (by omega)]
  refine ⟨_, _, h, by simp [setNextBatch], ?_⟩
  refine ⟨mkLock e amt vs env.timestamp pd, ?_, rfl, rfl, rfl⟩
  simp [get_status, setNextBatch, setRecord, mkLock]

theorem lock_returns_counter_then_increments_witness :
    ((initialState.nextBatchId 0).getD 0 = 0) ∧
    (∃ s' cs, lock_payroll ⟨50, 5⟩ cfgState 0 1000 100 1000 =
        (.ok ((cfgState.nextBatchId 0).getD 0), s', cs) ∧
      (s'.nextBatchId 0).getD 0 = (cfgState.nextBatchId 0).getD 0 + 1 ∧
      ∃ l, get_status s' 0 ((cfgState.nextBatchId 0).getD 0) = .ok l ∧
        l.funds_released = false ∧ l.yield_claimed = false ∧
        l.yield_earned = 0) :=
  ⟨(lock_returns_counter_then_increments ⟨50, 5⟩ cfgState 0 8 7 1000 1000 100).1,
   (lock_returns_counter_then_increments ⟨50, 5⟩ cfgState 0 8 7 1000 1000 100).2
     (by decide) (by decide) (by rfl) (by rfl)⟩

/-- C6 counterexample: at current time 5 with `payout_date = 0 ≤ now` and
amount `-1`, `lock_payroll` fails with `InvalidAmount`, not the claimed
unconditional `InvalidPayoutDate`: the amount guard precedes the
payout-date guard. -/
theorem lock_invalid_amount_before_payout_counterexample :
    lock_payroll ⟨5, 5⟩ stateA 0 (-1) 0 0 = (.error .InvalidAmount, stateA, []) ∧
      Error.InvalidAmount ≠ Error.InvalidPayoutDate :=
  ⟨rfl, by decide⟩

/-- C6 (amended): `lock_payroll` with a non-negative amount and
`payout_date ≤ now` always fails with `InvalidPayoutDate` (with a negative
amount the earlier `InvalidAmount` guard fires instead), and — as for every
guard failure of `lock_payroll` (in any state whose two configuration
addresses are set together, as `initialize` guarantees), `release_to_sdp`
and `claim_yield` — the operation aborts before any record mutation or
external transfer: the state is returned unchanged and no external call is
made. -/
theorem lock_invalid_payout_and_guards_abort_first
    (env : LedgerEnv) (s : ContractState) (e sdp : Address) (amt vs : Int)
    (pd b : Nat) (wa : List Int) :
    (0 ≤ amt → pd ≤ env.timestamp →
      lock_payroll env s e amt pd vs = (.error .InvalidPayoutDate, s, [])) ∧
    (amt < 0 →
      lock_payroll env s e amt pd vs = (.error .InvalidAmount, s, [])) ∧
    (∀ err s' cs, (s.tokenAddr.isSome → s.defindexPool.isSome) →
      lock_payroll env s e amt pd vs = (.error err, s', cs) →
      s' = s ∧ cs = []) ∧
    (∀ err s' cs, release_to_sdp env s e b sdp wa = (.error err, s', cs) →
      s' = s ∧ cs = []) ∧
    (∀ err s' cs, claim_yield env s e b = (.error err, s', cs) →
      s' = s ∧ cs = []) := by
  refine ⟨fun hamt hpd => ?_, fun hamt => ?_, fun err s' cs hcfg h => ?_,
    fun err s' cs h => ?_, fun err s' cs h => ?_⟩
  · simp only [lock_payroll]
    rw [if_neg (by omega), if_pos hpd]
  · simp only [lock_payroll]
    rw [if_pos hamt]
  · rcases lock_payroll_cases env s e amt pd vs _ s' cs h with
      ⟨_, rfl, rfl⟩ | ⟨_, rfl, htok, hdp⟩ | ⟨lk, hr, _⟩
    · exact ⟨rfl, rfl⟩
    · rw [hdp] at hcfg
      simpa using hcfg htok
    · cases hr
  · rcases release_cases env s e b sdp wa _ s' cs h with
      ⟨_, rfl, rfl⟩ | ⟨lk, _, _, _, hr, _⟩
    · exact ⟨rfl, rfl⟩
    · cases hr
  · rcases claim_cases env s e b _ s' cs h with
      ⟨_, rfl, rfl⟩ | ⟨lk, _, _, _, _, hr, _⟩
    · exact ⟨rfl, rfl⟩
    · cases hr

theorem lock_invalid_payout_and_guards_abort_first_witness :
    lock_payroll ⟨5, 5⟩ cfgState 0 0 0 0 = (.error .InvalidPayoutDate, cfgState, []) ∧
      (cfgState = cfgState ∧ ([] : List ExtCall) = []) :=
  ⟨(lock_invalid_payout_and_guards_abort_first ⟨5, 5⟩ cfgState 0 9 0 0 0 0 []).1
     (by decide) (by decide),
   (lock_invalid_payout_and_guards_abort_first ⟨5, 5⟩ cfgState 0 9 0 0 0 0 []).2.2.2.1
     .NotInitialized cfgState [] (by rfl)⟩

/-- A reachable state with one locked record: `cfgState` after
`lock_payroll(0, 1000, 100)` at time 0 with the vault minting 1000
shares. -/
def lockedState : ContractState :=
  (lock_payroll ⟨0, 5⟩ cfgState 0 1000 100 1000).2.1

theorem reachable_cfgState : Reachable cfgState :=
  Reachable.step initialState cfgState Reachable.base
    (Step.init initialState 7 8 (initContract initialState 7 8).1 cfgState rfl)

theorem reachable_lockedState : Reachable lockedState :=
  Reachable.step cfgState lockedState reachable_cfgState
    (Step.lock ⟨0, 5⟩ cfgState 0 1000 100 1000
      (lock_payroll ⟨0, 5⟩ cfgState 0 1000 100 1000).1 lockedState
      (lock_payroll ⟨0, 5⟩ cfgState 0 1000 100 1000).2.2 rfl)

/-- `lockedState` after releasing batch 0 at time 100 with the vault
returning 1005. -/
def lockedReleasedState : ContractState :=
  (release_to_sdp ⟨100, 5⟩ lockedState 0 0 9 [1005]).2.1

/-- C7: in every reachable state an unreleased record has
`yield_earned = 0` and `yield_claimed = false`, and a claimed record is
released; moreover no single invocation of any entry point deletes a record
or regresses its `funds_released` or `yield_claimed` flag from `true` back
to `false`. -/
theorem reachable_record_invariants (s s' : ContractState)
    (hr : Reachable s) (hs : Step s s') :
    (∀ e b l, s.locks e b = some l →
      (l.funds_released = false → l.yield_earned = 0 ∧ l.yield_claimed = false) ∧
      (l.yield_claimed = true → l.funds_released = true)) ∧
    (∀ e b l, s.locks e b = some l →
      ∃ l', s'.locks e b = some l' ∧
        (l.funds_released = true → l'.funds_released = true) ∧
        (l.yield_claimed = true → l'.yield_claimed = true)) := by
  have hw := wf_reachable s hr
  exact ⟨fun e b l hl => ⟨hw.unreleased e b l hl, hw.claimed_rel e b l hl⟩,
    step_mono s s' hw hs⟩

theorem reachable_record_invariants_witness :
    (∀ e b l, lockedState.locks e b = some l →
      (l.funds_released = false → l.yield_earned = 0 ∧ l.yield_claimed = false) ∧
      (l.yield_claimed = true → l.funds_released = true)) ∧
    (∀ e b l, lockedState.locks e b = some l →
      ∃ l', lockedReleasedState.locks e b = some l' ∧
        (l.funds_released = true → l'.funds_released = true) ∧
        (l.yield_claimed = true → l'.yield_claimed = true)) :=
  reachable_record_invariants lockedState lockedReleasedState reachable_lockedState
    (Step.release ⟨100, 5⟩ lockedState 0 0 9 [1005]
      (release_to_sdp ⟨100, 5⟩ lockedState 0 0 9 [1005]).1 lockedReleasedState
      (release_to_sdp ⟨100, 5⟩ lockedState 0 0 9 [1005]).2.2 rfl)

/-- C9: in every reachable state each stored record's `employer` field
equals the employer component of its storage key, because `lock_payroll`
always writes under the authenticated caller's key; consequently
`claim_yield` can never return `Unauthorized`, and a caller with no record
under their own key observes `NotInitialized`. -/
theorem stored_employer_matches_key_so_unauthorized_unreachable
    (env : LedgerEnv) (s : ContractState) (c : Address) (b : Nat)
    (hr : Reachable s) :
    (∀ e b2 l, s.locks e b2 = some l → l.employer = e) ∧
    (∀ r s' cs, claim_yield env s c b = (r, s', cs) →
      r ≠ .error .Unauthorized) ∧
    (s.locks c b = none →
      claim_yield env s c b = (.error .NotInitialized, s, [])) := by
  have hw := wf_reachable s hr
  refine ⟨hw.owner, ?_, fun h => by simp [claim_yield, h]⟩
  intro r s' cs h
  cases hlk : s.locks c b with
  | none =>
    simp only [claim_yield, hlk] at h
    injection h with h1 h2
    intro hc
    rw [← h1] at hc
    simp at hc
  | some lk =>
    have hemp := hw.owner c b lk hlk
    simp only [claim_yield, hlk] at h
    rw [if_neg (by simp [hemp])] at h
    split at h
    · injection h with h1 h2
      intro hc
      rw [← h1] at hc
      simp at hc
    · split at h
      · injection h with h1 h2
        intro hc
        rw [← h1] at hc
        simp at hc
      · split at h
        · injection h with h1 h2
          intro hc
          rw [← h1] at hc
          simp at hc
        · injection h with h1 h2
          intro hc
          rw [← h1] at hc
          simp at hc

theorem stored_employer_matches_key_witness :
    (∀ e b2 l, lockedState.locks e b2 = some l → l.employer = e) ∧
    (∀ r s' cs, claim_yield ⟨150, 5⟩ lockedState 1 0 = (r, s', cs) →
      r ≠ .error .Unauthorized) ∧
    claim_yield ⟨150, 5⟩ lockedState 1 0 = (.error .NotInitialized, lockedState, []) :=
  ⟨(stored_employer_matches_key_so_unauthorized_unreachable ⟨150, 5⟩
      lockedState 1 0 reachable_lockedState).1,
   (stored_employer_matches_key_so_unauthorized_unreachable ⟨150, 5⟩
      lockedState 1 0 reachable_lockedState).2.1,
   (stored_employer_matches_key_so_unauthorized_unreachable ⟨150, 5⟩
      lockedState 1 0 reachable_lockedState).2.2 (by rfl)⟩

/-- A record locked at time 0 with principal 1000 and a far maturity, for
exercising the interest formula over a full year. -/
def lockC : PayrollLock :=
  { employer := 0, total_amount := 1000, vault_shares := 1000, lock_date := 0,
    payout_date := 99999999, yield_earned := 0, funds_released := false,
    yield_claimed := false }

/-- An initialized state holding `lockC` under key `(0, 0)`. -/
def stateC : ContractState :=
  { defindexPool := some 7, tokenAddr := some 8
    locks := fun e b => if e = 0 ∧ b = 0 then some lockC else none
    nextBatchId := fun e => if e = 0 then some 1 else none }

/-- C8: for any record and any ledger time `t` before maturity, whenever
the checked preview `calculate_current_yield` returns `Ok v`, the
simple-interest `yield_earned` that the vault-less frontend variant's
`release_to_sdp` would compute and store when invoked at exactly time `t`
is that same `v`: both evaluate
`total_amount * 4 * ((t - lock_date) / 86400) / (365 * 100)`. -/
theorem preview_matches_frontend_release_yield
    (env : LedgerEnv) (s : ContractState) (e : Address) (b : Nat)
    (l : PayrollLock) (v : Int) (hl : s.locks e b = some l)
    (_hmat : env.timestamp < l.payout_date)
    (hv : calculate_current_yield env s e b = some (.ok v)) :
    frontend_release_yield l.total_amount l.lock_date env.timestamp = some v := by
  simp only [calculate_current_yield, hl] at hv
  cases hsub : u64_sub env.timestamp l.lock_date with
  | none =>
    rw [hsub] at hv
    cases hv
  | some elapsed =>
    rw [hsub] at hv
    simp only [frontend_release_yield, hsub, Option.some_bind]
    cases hmul1 : i128_checked_mul l.total_amount 4 with
    | none =>
      rw [hmul1] at hv
      simp only [Option.none_bind] at hv
      exact absurd hv (by simp)
    | some p1 =>
      rw [hmul1] at hv
      simp only [Option.some_bind] at hv
      cases hmul2 : i128_checked_mul p1 (Int.ofNat (elapsed / 86400)) with
      | none =>
        rw [hmul2] at hv
        simp only [Option.none_bind] at hv
        exact absurd hv (by simp)
      | some p2 =>
        rw [hmul2] at hv
        simp only [Option.some_bind] at hv
        have hdiv : i128_checked_div p2 (365 * 100) =
            some (Int.tdiv p2 (365 * 100)) := by
          rw [i128_checked_div, if_neg (by norm_num), if_neg (by norm_num)]
        rw [hdiv] at hv
        simp only [Option.some.injEq, Except.ok.injEq] at hv
        rw [Option.some_bind, hmul2, Option.map_some']
        rw [hv]

theorem preview_matches_frontend_release_yield_witness :
    frontend_release_yield lockC.total_amount lockC.lock_date 31536000 =
      some 40 :=
  preview_matches_frontend_release_yield ⟨31536000, 5⟩ stateC 0 0 lockC 40
    (by rfl) (by decide) (by rfl)

/-- C10: the elapsed-time computation of `calculate_current_yield` is the
unchecked `u64` subtraction `timestamp - lock_date`; whenever the current
timestamp is at least the record's `lock_date` (which the monotone clock
guarantees, the `lock_date` having been read from the same clock at
creation) the subtraction does not underflow, and the function terminates
normally, returning a `Result` value for every existing record. -/
theorem preview_no_underflow_and_total
    (env : LedgerEnv) (s : ContractState) (e : Address) (b : Nat)
    (l : PayrollLock) (hl : s.locks e b = some l)
    (hts : l.lock_date ≤ env.timestamp) :
    u64_sub env.timestamp l.lock_date = some (env.timestamp - l.lock_date) ∧
    ∃ r, calculate_current_yield env s e b = some r := by
  have hsub : u64_sub env.timestamp l.lock_date =
      some (env.timestamp - l.lock_date) := by
    simp [u64_sub, hts]
  refine ⟨hsub, ?_⟩
  simp only [calculate_current_yield, hl, hsub]
  cases h2 : (i128_checked_mul l.total_amount 4).bind
      (fun v => (i128_checked_mul v
          (Int.ofNat ((env.timestamp - l.lock_date) / 86400))).bind
        (fun v2 => i128_checked_div v2 (365 * 100))) with
  | none => exact ⟨.error .InsufficientFunds, rfl⟩
  | some v => exact ⟨.ok v, rfl⟩

theorem preview_no_underflow_and_total_witness :
    u64_sub 50 lockA.lock_date = some (50 - lockA.lock_date) ∧
    ∃ r, calculate_current_yield ⟨50, 5⟩ stateA 0 0 = some r :=
  preview_no_underflow_and_total ⟨50, 5⟩ stateA 0 0 lockA (by rfl) (by decide)

end Payday
